import Mathlib

/-!
Shallow embedding of the libev fiber-scheduling I/O backend
(`ext/polyphony/backend_libev.c`).

The backend's I/O operations are loops around non-blocking syscalls.  We
model the environment (kernel + scheduler) as a trace of events consumed in
program order:

* `Event.sys r` — the outcome of the next syscall attempt (`r` is either a
  transfer count or an errno);
* `Event.resume exn` — the resume value observed at the next suspension
  point (`backend_await` after registering a watcher, or `backend_snooze`);
  `exn = true` models an exception-typed resume value (`TEST_EXCEPTION`).

File descriptors are byte streams: a readable fd is the list of bytes still
to be delivered, a writable fd is the list of bytes transmitted so far.
A syscall event `Event.sys (SysRes.ok n)` transfers `min n requested`
bytes (the kernel never transfers more than asked for, nor more than the
source holds); `Event.sys (SysRes.err e)` is a failure with errno `e`.

Loops are executed with explicit fuel; since every loop iteration of the C
code consumes at least one trace event, fuel `trace.length + 1` is enough,
and a run that exhausts its fuel or its trace ends in the `stuck` outcome
(the operation is still suspended / looping).  All theorems below are about
runs that finish.
-/

/-- Linux errno for EWOULDBLOCK (= EAGAIN on Linux). -/
def EWOULDBLOCK : Nat := 11

/-- Linux errno for EAGAIN. -/
def EAGAIN : Nat := 11

/-- Linux errno for EINTR. -/
def EINTR : Nat := 4

/-- Linux errno for EINPROGRESS. -/
def EINPROGRESS : Nat := 115

/-- The would-block test performed by every read/write-style op in
`backend_libev.c`: `e != EWOULDBLOCK && e != EAGAIN` guards
`rb_syserr_fail`. -/
def is_would_block (e : Nat) : Bool :=
  e == EWOULDBLOCK || e == EAGAIN

/-- Result of one syscall attempt. -/
inductive SysRes where
  | ok (n : Nat)
  | err (e : Nat)
deriving Repr, DecidableEq

/-- One event of the environment trace. -/
inductive Event where
  | sys (r : SysRes)
  | resume (exn : Bool)
deriving Repr, DecidableEq

/-- How an I/O operation finished. -/
inductive IOOut where
  | ret (n : Nat)     -- normal return (byte count)
  | syserr (e : Nat)  -- `rb_syserr_fail(e, ...)`
  | exn               -- exception-typed resume value re-raised
  | stuck             -- trace/fuel exhausted while still suspended or looping
deriving Repr, DecidableEq

/-- Ruby values as far as the backend inspects them: `Qnil`, numbers,
`TimeoutException` sentinels (identified, to model object identity), and
other exception objects. -/
inductive RVal where
  | nil
  | num (n : Nat)
  | sentinel (id : Nat)
  | exnObj (e : Nat)
deriving Repr, DecidableEq

/-- The `RTEST` macro: everything but `Qnil` (and `Qfalse`, which our value
universe does not need) is truthy. -/
def RTEST : RVal → Bool
  | .nil => false
  | _ => true

/-- The `TEST_EXCEPTION` macro: is the value an `Exception` instance?
`TimeoutException` sentinels are exceptions. -/
def is_exception : RVal → Bool
  | .sentinel _ => true
  | .exnObj _ => true
  | _ => false

/-! ## `Backend_write` (backend_libev.c lines 446-493)

The loop `while (left > 0) { n = write(fd, buf, left); ... }`: a short
write advances `buf` and decreases `left`; a would-block errno starts an
`EV_WRITE` watcher and awaits; any other errno raises.  After the loop, if
the op never blocked (`watcher.fiber == Qnil`) it snoozes once; the return
value is `INT2NUM(len)`, the full length of the string. -/

/-- State of a finished (or stuck) `Backend_write` run: outcome, the bytes
transmitted to the fd in order, and the unconsumed trace. -/
structure WriteRes where
  out : IOOut
  written : List Nat
  rest : List Event
deriving Repr, DecidableEq

/-- The write loop of `Backend_write`.  `written` is the fd's transmitted
byte stream, `buf` the remaining bytes of the string, `blocked` whether the
watcher's fiber has been set (`watcher.fiber != Qnil`), `len` the original
string length. -/
def write_go (fuel : Nat) (written buf : List Nat) (blocked : Bool) (len : Nat)
    (tr : List Event) : WriteRes :=
  match fuel with
  | 0 => ⟨.stuck, written, tr⟩
  | fuel + 1 =>
    if buf.isEmpty then
      -- loop exited; snooze unless the op blocked at least once
      if blocked then ⟨.ret len, written, tr⟩
      else
        match tr with
        | .resume ex :: tr' =>
          if ex then ⟨.exn, written, tr'⟩ else ⟨.ret len, written, tr'⟩
        | _ => ⟨.stuck, written, tr⟩
    else
      match tr with
      | .sys (.ok n) :: tr' =>
        write_go fuel (written ++ buf.take n) (buf.drop n) blocked len tr'
      | .sys (.err e) :: tr' =>
        if is_would_block e then
          match tr' with
          | .resume ex :: tr'' =>
            if ex then ⟨.exn, written, tr''⟩
            else write_go fuel written buf true len tr''
          | _ => ⟨.stuck, written, tr'⟩
        else ⟨.syserr e, written, tr'⟩
      | _ => ⟨.stuck, written, tr⟩

/-- `Backend_write(self, io, str)` on string `s`, starting from an empty fd
stream. -/
def Backend_write (s : List Nat) (tr : List Event) : WriteRes :=
  write_go (tr.length + 1) [] s false s.length tr

/-! ## `Backend_read` (backend_libev.c lines 264-335)

`read(io, str, length, to_eof, pos)`: `length == nil` selects a dynamic
4096-byte buffer doubled on growth; `pos` is clamped into `[0, len(str)]`;
the loop reads `len - total` bytes, snoozes after every successful read,
breaks on EOF (`n == 0`), after one read when `to_eof` is falsy, or when
the buffer is full and not dynamic.  Returns `Qnil` when `total == 0`,
else the string truncated to `buf_pos + total` bytes. -/

/-- How a `Backend_read` run finished. -/
inductive ReadOut where
  | retNil
  | retStr (s : List Nat)
  | syserr (e : Nat)
  | exn
  | stuck
deriving Repr, DecidableEq

/-- Result of a `Backend_read` run: outcome, remaining readable bytes of
the fd, and the unconsumed trace. -/
structure ReadRes where
  out : ReadOut
  src : List Nat
  rest : List Event
deriving Repr, DecidableEq

/-- The `pos` clamping of `Backend_read`: `if (buf_pos < 0 || buf_pos >
current_len) buf_pos = current_len`, and `buf_pos = 0` for a nil string. -/
def clamp_pos (str : Option (List Nat)) (pos : Int) : Nat :=
  match str with
  | some s => if pos < 0 || pos > (s.length : Int) then s.length else pos.toNat
  | none => 0

/-- The read loop of `Backend_read`.  `kept` is the preserved string head
(`str[0, buf_pos]`), `acc` the bytes read so far (`total = acc.length`),
`len` the current buffer capacity. -/
def read_go (fuel : Nat) (kept : List Nat) (dynamic toEof : Bool)
    (src acc : List Nat) (len : Nat) (tr : List Event) : ReadRes :=
  match fuel with
  | 0 => ⟨.stuck, src, tr⟩
  | fuel + 1 =>
    match tr with
    | .sys (.ok n) :: tr' =>
      -- the kernel delivers at most `len - total` bytes and no more than
      -- the fd still holds; `a` is the syscall's return value
      let a := min (min n (len - acc.length)) src.length
      let src' := src.drop a
      match tr' with
      | .resume ex :: tr'' =>
        if ex then ⟨.exn, src', tr''⟩
        else if a == 0 then
          -- EOF break; then `if (total == 0) return Qnil`
          if acc.isEmpty then ⟨.retNil, src', tr''⟩
          else ⟨.retStr (kept ++ acc), src', tr''⟩
        else
          let acc' := acc ++ src.take a
          if !toEof then
            if acc'.isEmpty then ⟨.retNil, src', tr''⟩
            else ⟨.retStr (kept ++ acc'), src', tr''⟩
          else if acc'.length == len then
            if dynamic then read_go fuel kept dynamic toEof src' acc' (len + len) tr''
            else if acc'.isEmpty then ⟨.retNil, src', tr''⟩
            else ⟨.retStr (kept ++ acc'), src', tr''⟩
          else read_go fuel kept dynamic toEof src' acc' len tr''
      | _ => ⟨.stuck, src', tr'⟩
    | .sys (.err e) :: tr' =>
      if is_would_block e then
        match tr' with
        | .resume ex :: tr'' =>
          if ex then ⟨.exn, src, tr''⟩
          else read_go fuel kept dynamic toEof src acc len tr''
        | _ => ⟨.stuck, src, tr'⟩
      else ⟨.syserr e, src, tr'⟩
    | _ => ⟨.stuck, src, tr⟩

/-- `Backend_read(self, io, str, length, to_eof, pos)`: `str` is the
initial string (or nil), `length` the requested length (or nil for
dynamic), `src` the fd's readable bytes. -/
def Backend_read (str : Option (List Nat)) (length : Option Nat) (to_eof : RVal)
    (pos : Int) (src : List Nat) (tr : List Event) : ReadRes :=
  read_go (tr.length + 1) ((str.getD []).take (clamp_pos str pos)) length.isNone
    (RTEST to_eof) src [] (length.getD 4096) tr

/-- `Backend_recv(self, io, str, length, pos)` is literally
`Backend_read(self, io, str, length, Qnil, pos)` (backend_libev.c lines
337-339). -/
def Backend_recv (str : Option (List Nat)) (length : Option Nat) (pos : Int)
    (src : List Nat) (tr : List Event) : ReadRes :=
  Backend_read str length RVal.nil pos src tr

/-! ## `Backend_connect` (backend_libev.c lines 697-735)

A single non-blocking `connect`: on `EINPROGRESS` the op registers an
`EV_WRITE` watcher and awaits (no retry of the syscall afterwards); on any
other errno it raises; on immediate success it snoozes.  Either way it
returns the socket. -/

/-- How a `Backend_connect` run finished. -/
inductive ConnectOut where
  | retSock
  | syserr (e : Nat)
  | exn
  | stuck
deriving Repr, DecidableEq

/-- Result of a `Backend_connect` run. -/
structure ConnectRes where
  out : ConnectOut
  rest : List Event
deriving Repr, DecidableEq

/-- `Backend_connect(self, sock, host, port)` reduced to its control flow
on the syscall outcome. -/
def Backend_connect (tr : List Event) : ConnectRes :=
  match tr with
  | .sys (.ok _) :: tr' =>
    match tr' with
    | .resume ex :: tr'' => if ex then ⟨.exn, tr''⟩ else ⟨.retSock, tr''⟩
    | _ => ⟨.stuck, tr'⟩
  | .sys (.err e) :: tr' =>
    if e == EINPROGRESS then
      match tr' with
      | .resume ex :: tr'' => if ex then ⟨.exn, tr''⟩ else ⟨.retSock, tr''⟩
      | _ => ⟨.stuck, tr'⟩
    else ⟨.syserr e, tr'⟩
  | _ => ⟨.stuck, tr⟩

/-! ## The RW watcher refcount (backend_libev.c lines 787-835)

`libev_wait_rw_fd_with_watcher` sets `ctx.ref_count = 0` and increments it
once for each registered side.  `Backend_rw_io_callback` executes
`int ref_count = watcher->ctx->ref_count--;` (post-decrement: the observed
value is the value before the decrement) and calls `Fiber_make_runnable`
only `if (!ref_count)`, i.e. when the observed value is zero.  libev `ev_io`
watchers are level-triggered, so while the fd stays ready the callback
fires again on each loop iteration. -/

/-- The refcount context shared by the two sides of an RW watcher.
`runnable` records whether `Fiber_make_runnable(ctx->fiber, Qnil)` has been
called. -/
structure RwCtx where
  refCount : Int
  runnable : Bool
deriving Repr, DecidableEq

/-- One invocation of `Backend_rw_io_callback` on the shared context. -/
def Backend_rw_io_callback (ctx : RwCtx) : RwCtx :=
  { refCount := ctx.refCount - 1,
    runnable := ctx.runnable || (ctx.refCount == 0) }

/-- The registration phase of `libev_wait_rw_fd_with_watcher`: refcount 0,
plus one per registered side (`r_fd != -1`, `w_fd != -1`). -/
def libev_rw_register (r_registered w_registered : Bool) : RwCtx :=
  { refCount := (if r_registered then 1 else 0) + (if w_registered then 1 else 0),
    runnable := false }

/-! ## `Backend_timeout` (backend_libev.c lines 1179-1232)

A fresh `TimeoutException` sentinel is armed as the timer's resume value;
the protected block runs under `rb_ensure`, whose ensure clause
(`Backend_timeout_ensure`) stops the timer; the block's outcome — its
normal value, or any exception it raised — becomes `result`.  If `result`
is (object-identical to) this frame's sentinel, the frame returns
`move_on_value` when no exception class was supplied, else raises a fresh
exception built from it; otherwise an exception result is re-raised
(`RAISE_IF_EXCEPTION`) and a normal result returned. -/

/-- Outcome of the protected block of a `timeout` frame. -/
inductive BlockRes where
  | normal (v : RVal)
  | raised (e : RVal)
deriving Repr, DecidableEq

/-- Modelled from the spec: `Backend_timeout_ensure_safe` (declared in
backend_common.h, which is not part of the analysed sources) runs the
protected block and rescues any exception it raises, returning the
exception object as the block's result value; the spec's timeout contract
says the block is run and the timer unregistered "on exit (any path)". -/
def timeout_protected (blockRes : BlockRes) : RVal :=
  match blockRes with
  | .normal v => v
  | .raised e => e

/-- How a `Backend_timeout` frame finished. -/
inductive TimeoutOut where
  | ret (v : RVal)
  | raisedFresh (ctor : Nat)  -- `RAISE_EXCEPTION(backend_timeout_exception(exception))`
  | raisedVal (e : RVal)      -- `RAISE_IF_EXCEPTION(result)`
deriving Repr, DecidableEq

/-- Result of a `Backend_timeout` frame; `timerStopped` records that
`ev_timer_stop` ran (via the `rb_ensure` clause `Backend_timeout_ensure`). -/
structure TimeoutRun where
  timerStopped : Bool
  outcome : TimeoutOut
deriving Repr, DecidableEq

/-- `Backend_timeout(duration, exception, move_on_value)` for the frame
whose fresh sentinel has identity `myId`, applied to the protected block's
outcome. -/
def Backend_timeout (myId : Nat) (exception : Option Nat) (move_on_value : RVal)
    (blockRes : BlockRes) : TimeoutRun :=
  let result := timeout_protected blockRes
  { timerStopped := true,
    outcome :=
      if result = RVal.sentinel myId then
        match exception with
        | none => .ret move_on_value
        | some ctor => .raisedFresh ctor
      else if is_exception result then .raisedVal result
      else .ret result }

/-! ## `Backend_timer_loop` (backend_libev.c lines 1147-1177)

After the sleep and the `rb_yield`, the deadline is advanced by
`do { next_time += interval_d; } while (next_time <= now);` where `now` is
the time read at the top of the iteration.  We model the do-while with
fuel; for a positive interval any fuel with `now < nt + fuel * interval`
is enough. -/

/-- The deadline-advance do-while of `Backend_timer_loop`: at least one
increment, then more while `next_time <= now`. -/
def timer_loop_advance : Nat → ℚ → ℚ → ℚ → ℚ
  | 0, _, _, nt => nt
  | fuel + 1, interval, now, nt =>
    let nt' := nt + interval
    if nt' ≤ now then timer_loop_advance fuel interval now nt' else nt'

/-! ## `Backend_splice_chunks` (backend_libev.c lines 1367-1541)

State of the pipeline: the source fd's remaining bytes, the kernel pipe's
buffered bytes, and the destination fd's received byte stream; `blocked`
records whether `watcher.ctx.fiber` has been set by an RW wait.  The value
prefix/postfix framing strings are written by `splice_chunks_write` (a
short-write loop); each chunk is spliced from the source into the pipe
(`splice_chunks_splice`, a retry loop around `splice(2)`), framed, and
drained from the pipe to the destination. -/

/-- Pipeline state of a `Backend_splice_chunks` run. -/
structure SCState where
  src : List Nat
  pipe : List Nat
  dest : List Nat
  blocked : Bool
deriving Repr, DecidableEq

/-- Result of a pipeline step (or of the whole run, with `moved` the
total): bytes moved, new state, unconsumed trace. -/
inductive SCRes where
  | ok (moved : Nat) (st : SCState) (tr : List Event)
  | syserr (e : Nat) (st : SCState) (tr : List Event)
  | exn (st : SCState) (tr : List Event)
  | stuck
deriving Repr, DecidableEq

/-- `splice_chunks_write(backend, fd, str, ...)`: the short-write loop
writing `buf` to the destination fd (awaiting on the RW watcher's write
side when the syscall would block). -/
def sc_write (fuel : Nat) (st : SCState) (buf : List Nat) (tr : List Event) : SCRes :=
  match fuel with
  | 0 => .stuck
  | fuel + 1 =>
    if buf.isEmpty then .ok 0 st tr
    else
      match tr with
      | .sys (.ok n) :: tr' =>
        sc_write fuel { st with dest := st.dest ++ buf.take n } (buf.drop n) tr'
      | .sys (.err e) :: tr' =>
        if is_would_block e then
          match tr' with
          | .resume ex :: tr'' =>
            if ex then .exn { st with blocked := true } tr''
            else sc_write fuel { st with blocked := true } buf tr''
          | _ => .stuck
        else .syserr e st tr'
      | _ => .stuck

/-- Direction of a `splice_chunks_splice` call: source fd into the pipe's
write end, or the pipe's read end into the destination fd. -/
inductive SCDir where
  | toPipe
  | toDest
deriving Repr, DecidableEq

/-- The byte movement of one successful `splice(2)` of at most `maxlen`
bytes, the kernel answering with count `n`. -/
def sc_move (st : SCState) (dir : SCDir) (maxlen n : Nat) : Nat × SCState :=
  match dir with
  | .toPipe =>
    let a := min (min n maxlen) st.src.length
    (a, { st with src := st.src.drop a, pipe := st.pipe ++ st.src.take a })
  | .toDest =>
    let a := min (min n maxlen) st.pipe.length
    (a, { st with pipe := st.pipe.drop a, dest := st.dest ++ st.pipe.take a })

/-- `splice_chunks_splice` (POLYPHONY_LINUX variant): retry `splice(2)`
until it does not would-block; return the transferred count. -/
def sc_splice (fuel : Nat) (st : SCState) (dir : SCDir) (maxlen : Nat)
    (tr : List Event) : SCRes :=
  match fuel with
  | 0 => .stuck
  | fuel + 1 =>
    match tr with
    | .sys (.ok n) :: tr' =>
      let p := sc_move st dir maxlen n
      .ok p.1 p.2 tr'
    | .sys (.err e) :: tr' =>
      if is_would_block e then
        match tr' with
        | .resume ex :: tr'' =>
          if ex then .exn { st with blocked := true } tr''
          else sc_splice fuel { st with blocked := true } dir maxlen tr''
        | _ => .stuck
      else .syserr e st tr'
    | _ => .stuck

/-- The chunk drain loop of `Backend_splice_chunks`:
`while (left > 0) { splice_chunks_splice(pipefd[0], dest, left, ...); left -= len; }`. -/
def sc_drain (fuel : Nat) (st : SCState) (left : Nat) (tr : List Event) : SCRes :=
  match fuel with
  | 0 => .stuck
  | fuel + 1 =>
    if left == 0 then .ok 0 st tr
    else
      match sc_splice (tr.length + 1) st .toDest left tr with
      | .ok a st' tr' => sc_drain fuel st' (left - a) tr'
      | r => r

/-- A chunk-framing argument: `Qnil`, a string, or a callable applied to
the chunk length. -/
inductive Framing where
  | noFraming
  | strF (s : List Nat)
  | fnF (f : Nat → List Nat)

/-- The bytes a framing argument contributes for a chunk of length `n`:
`(TYPE(x) == T_STRING) ? x : rb_funcall(x, ID_call, 1, chunk_len)`; nil
contributes nothing. -/
def frame_bytes : Framing → Nat → List Nat
  | .noFraming, _ => []
  | .strF s, _ => s
  | .fnF f, n => f n

/-- The guarded framing write of the main loop: skipped entirely for a nil
argument, else a `splice_chunks_write` of the framing bytes. -/
def sc_write_framed (st : SCState) (fr : Framing) (clen : Nat) (tr : List Event) : SCRes :=
  match fr with
  | .noFraming => .ok 0 st tr
  | f => sc_write (tr.length + 1) st (frame_bytes f clen) tr

/-- The main chunk loop of `Backend_splice_chunks`: splice up to
`chunk_size` bytes from the source into the pipe; on a zero chunk break;
else write the chunk prefix, drain the chunk to the destination, write the
chunk postfix, and repeat, accumulating `total`. -/
def sc_loop (fuel : Nat) (cp cq : Framing) (chunk_size : Nat) (st : SCState)
    (total : Nat) (tr : List Event) : SCRes :=
  match fuel with
  | 0 => .stuck
  | fuel + 1 =>
    match sc_splice (tr.length + 1) st .toPipe chunk_size tr with
    | .ok clen st1 tr1 =>
      if clen == 0 then .ok total st1 tr1
      else
        match sc_write_framed st1 cp clen tr1 with
        | .ok _ st2 tr2 =>
          match sc_drain (tr2.length + 1) st2 clen tr2 with
          | .ok _ st3 tr3 =>
            match sc_write_framed st3 cq clen tr3 with
            | .ok _ st4 tr4 => sc_loop fuel cp cq chunk_size st4 (total + clen) tr4
            | r => r
          | r => r
        | r => r
    | r => r

/-- The epilogue of `Backend_splice_chunks`: write the value postfix (if
non-nil), then snooze once if the op never blocked, and return the total. -/
def sc_finish (post : Option (List Nat)) (total : Nat) (st : SCState)
    (tr : List Event) : SCRes :=
  let r3 := match post with
    | none => SCRes.ok 0 st tr
    | some s => sc_write (tr.length + 1) st s tr
  match r3 with
  | .ok _ st3 tr3 =>
    if st3.blocked then .ok total st3 tr3
    else
      match tr3 with
      | .resume ex :: tr4 => if ex then .exn st3 tr4 else .ok total st3 tr4
      | _ => .stuck
  | r => r

/-- `Backend_splice_chunks(self, src, dest, prefix, postfix, chunk_prefix,
chunk_postfix, chunk_size)`: write the value prefix, run the chunk loop,
write the value postfix, snooze if the op never blocked, and return the
total of source bytes transferred.  (The model covers runs in which the
`pipe(2)` creation succeeded; its failure raises before any byte moves.) -/
def Backend_splice_chunks (pre post : Option (List Nat)) (cp cq : Framing)
    (chunk_size : Nat) (src : List Nat) (tr : List Event) : SCRes :=
  let st0 : SCState := ⟨src, [], [], false⟩
  let r1 := match pre with
    | none => SCRes.ok 0 st0 tr
    | some s => sc_write (tr.length + 1) st0 s tr
  match r1 with
  | .ok _ st1 tr1 =>
    match sc_loop (tr1.length + 1) cp cq chunk_size st1 0 tr1 with
    | .ok total st2 tr2 => sc_finish post total st2 tr2
    | r => r
  | r => r

/-! ## `Backend_splice` (Linux variant, backend_libev.c lines 841-890) and
`Backend_chain` (lines 1322-1343)

`Backend_splice` retries `splice(2)` until it does not would-block, breaks
on any non-negative count (including 0), snoozes if it never blocked, and
returns the count.  `Backend_chain` walks its op array: each op is an array
whose head symbol and length select `Backend_write`, `Backend_send` or
`Backend_splice` (`Backend_send`'s write loop is byte-for-byte the loop of
`Backend_write` with `send(2)` in place of `write(2)`); anything else hits
`rb_raise(rb_eRuntimeError, "Invalid op specified or bad op arity")`. -/

/-- Result of a `Backend_splice` run: outcome (`ret` carries the last
splice count), remaining source bytes, destination stream, rest of trace. -/
structure BSpliceRes where
  out : IOOut
  src : List Nat
  dst : List Nat
  rest : List Event
deriving Repr, DecidableEq

/-- The syscall loop of `Backend_splice`: break on the first non-negative
count, then snooze if the op never blocked. -/
def bsplice_go (fuel : Nat) (src dst : List Nat) (maxlen : Nat) (blocked : Bool)
    (tr : List Event) : BSpliceRes :=
  match fuel with
  | 0 => ⟨.stuck, src, dst, tr⟩
  | fuel + 1 =>
    match tr with
    | .sys (.ok n) :: tr' =>
      let a := min (min n maxlen) src.length
      let src' := src.drop a
      let dst' := dst ++ src.take a
      if blocked then ⟨.ret a, src', dst', tr'⟩
      else
        match tr' with
        | .resume ex :: tr'' =>
          if ex then ⟨.exn, src', dst', tr''⟩ else ⟨.ret a, src', dst', tr''⟩
        | _ => ⟨.stuck, src', dst', tr'⟩
    | .sys (.err e) :: tr' =>
      if is_would_block e then
        match tr' with
        | .resume ex :: tr'' =>
          if ex then ⟨.exn, src, dst, tr''⟩
          else bsplice_go fuel src dst maxlen true tr''
        | _ => ⟨.stuck, src, dst, tr'⟩
      else ⟨.syserr e, src, dst, tr'⟩
    | _ => ⟨.stuck, src, dst, tr⟩

/-- `Backend_splice(self, src, dest, maxlen)`. -/
def Backend_splice (src dst : List Nat) (maxlen : Nat) (tr : List Event) : BSpliceRes :=
  bsplice_go (tr.length + 1) src dst maxlen false tr

/-- An element of a chain op array: the three recognised head symbols, an
unknown symbol, or a payload value (io handle, string, number). -/
inductive ChainArg where
  | symWrite
  | symSend
  | symSplice
  | symOther (s : Nat)
  | io (fd : Nat)
  | str (s : List Nat)
  | num (n : Nat)
deriving Repr, DecidableEq

/-- `RARRAY_AREF(op, i)` (`Qnil`, modelled as a non-symbol default, when
out of range). -/
def chain_arg (op : List ChainArg) (i : Nat) : ChainArg :=
  op.getD i (.num 0)

/-- The fd state a chain runs over: per-fd readable bytes and per-fd
transmitted byte streams. -/
structure ChainState where
  sources : Nat → List Nat
  sinks : Nat → List Nat

/-- Result of a chain (or of one chain op). -/
inductive ChainRes where
  | ok (result : RVal) (st : ChainState) (tr : List Event)
  | invalidOp (st : ChainState) (tr : List Event)   -- the arity/kind rb_raise
  | typeErr (st : ChainState) (tr : List Event)     -- host TypeError on a payload
  | syserr (e : Nat) (st : ChainState) (tr : List Event)
  | exn (st : ChainState) (tr : List Event)
  | stuck

/-- The validation performed by `Backend_chain`'s dispatch: head symbol
plus op array length. -/
def op_valid (op : List ChainArg) : Bool :=
  (chain_arg op 0 == ChainArg.symWrite && op.length == 3) ||
  (chain_arg op 0 == ChainArg.symSend && op.length == 4) ||
  (chain_arg op 0 == ChainArg.symSplice && op.length == 4)

/-- Lift a `Backend_write`-style result onto the chain state. -/
def chain_write (fd : Nat) (s : List Nat) (st : ChainState) (tr : List Event) : ChainRes :=
  let r := write_go (tr.length + 1) (st.sinks fd) s false s.length tr
  let st' : ChainState := { st with sinks := Function.update st.sinks fd r.written }
  match r.out with
  | .ret n => .ok (.num n) st' r.rest
  | .syserr e => .syserr e st' r.rest
  | .exn => .exn st' r.rest
  | .stuck => .stuck

/-- Lift a `Backend_splice` result onto the chain state. -/
def chain_splice (sfd dfd : Nat) (maxlen : Nat) (st : ChainState) (tr : List Event) : ChainRes :=
  let r := bsplice_go (tr.length + 1) (st.sources sfd) (st.sinks dfd) maxlen false tr
  let st' : ChainState := { st with
    sources := Function.update st.sources sfd r.src,
    sinks := Function.update st.sinks dfd r.dst }
  match r.out with
  | .ret n => .ok (.num n) st' r.rest
  | .syserr e => .syserr e st' r.rest
  | .exn => .exn st' r.rest
  | .stuck => .stuck

/-- Dispatch of one chain op, mirroring the `if`/`else if` cascade of
`Backend_chain`. -/
def chain_exec_op (op : List ChainArg) (st : ChainState) (tr : List Event) : ChainRes :=
  if chain_arg op 0 == ChainArg.symWrite && op.length == 3 then
    match chain_arg op 1, chain_arg op 2 with
    | .io fd, .str s => chain_write fd s st tr
    | _, _ => .typeErr st tr
  else if chain_arg op 0 == ChainArg.symSend && op.length == 4 then
    match chain_arg op 1, chain_arg op 2, chain_arg op 3 with
    | .io fd, .str s, .num _ => chain_write fd s st tr
    | _, _, _ => .typeErr st tr
  else if chain_arg op 0 == ChainArg.symSplice && op.length == 4 then
    match chain_arg op 1, chain_arg op 2, chain_arg op 3 with
    | .io sfd, .io dfd, .num m => chain_splice sfd dfd m st tr
    | _, _, _ => .typeErr st tr
  else .invalidOp st tr

/-- `Backend_chain(ops...)`: run the ops in order, threading `result`
(initially `Qnil`); any raising op aborts the walk. -/
def Backend_chain (ops : List (List ChainArg)) (result : RVal) (st : ChainState)
    (tr : List Event) : ChainRes :=
  match ops with
  | [] => .ok result st tr
  | op :: rest =>
    match chain_exec_op op st tr with
    | .ok r st' tr' => Backend_chain rest r st' tr'
    | other => other

/-! ## Invariants of the write loop -/

/-- Whatever the trace, a `write_go` run that returns normally has
transmitted exactly the remaining buffer, in order, and returns `len`. -/
theorem write_go_ok : ∀ (fuel : Nat) (written buf : List Nat) (blocked : Bool)
    (len : Nat) (tr : List Event) (r : WriteRes),
    write_go fuel written buf blocked len tr = r → ∀ n, r.out = IOOut.ret n →
    n = len ∧ r.written = written ++ buf := by
  intro fuel
  induction fuel with
  | zero =>
    intro written buf blocked len tr r hr n hn
    rw [write_go] at hr
    subst hr
    simp at hn
  | succ f ih =>
    intro written buf blocked len tr r hr n hn
    cases buf with
    | nil =>
      cases blocked with
      | true =>
        simp [write_go] at hr
        subst hr
        simp at hn
        simp [hn]
      | false =>
        cases tr with
        | nil => simp [write_go] at hr; subst hr; simp at hn
        | cons ev tr' =>
          cases ev with
          | sys s => simp [write_go] at hr; subst hr; simp at hn
          | resume ex =>
            cases ex with
            | true => simp [write_go] at hr; subst hr; simp at hn
            | false => simp [write_go] at hr; subst hr; simp at hn; simp [hn]
    | cons b bs =>
      cases tr with
      | nil => simp [write_go] at hr; subst hr; simp at hn
      | cons ev tr' =>
        cases ev with
        | resume ex => simp [write_go] at hr; subst hr; simp at hn
        | sys s =>
          cases s with
          | ok m =>
            simp only [write_go, List.isEmpty_cons, Bool.false_eq_true,
              if_false] at hr
            obtain ⟨h1, h2⟩ := ih _ _ _ _ _ _ hr n hn
            rw [List.append_assoc, List.take_append_drop] at h2
            exact ⟨h1, h2⟩
          | err e =>
            by_cases hwb : is_would_block e
            · cases tr' with
              | nil => simp [write_go, hwb] at hr; subst hr; simp at hn
              | cons ev2 tr'' =>
                cases ev2 with
                | sys s2 => simp [write_go, hwb] at hr; subst hr; simp at hn
                | resume ex =>
                  cases ex with
                  | true => simp [write_go, hwb] at hr; subst hr; simp at hn
                  | false =>
                    simp only [write_go, List.isEmpty_cons, Bool.false_eq_true,
                      if_false, hwb, if_true, Bool.true_eq_false] at hr
                    exact ih _ _ _ _ _ _ hr n hn
            · simp [write_go, hwb] at hr
              subst hr
              simp at hn

/-- A `write_go` run never surfaces a would-block errno: `rb_syserr_fail`
is reached only under `e != EWOULDBLOCK && e != EAGAIN`. -/
theorem write_go_syserr : ∀ (fuel : Nat) (written buf : List Nat) (blocked : Bool)
    (len : Nat) (tr : List Event) (r : WriteRes),
    write_go fuel written buf blocked len tr = r → ∀ e, r.out = IOOut.syserr e →
    is_would_block e = false := by
  intro fuel
  induction fuel with
  | zero =>
    intro written buf blocked len tr r hr e hn
    rw [write_go] at hr
    subst hr
    simp at hn
  | succ f ih =>
    intro written buf blocked len tr r hr e hn
    cases buf with
    | nil =>
      cases blocked with
      | true => simp [write_go] at hr; subst hr; simp at hn
      | false =>
        cases tr with
        | nil => simp [write_go] at hr; subst hr; simp at hn
        | cons ev tr' =>
          cases ev with
          | sys s => simp [write_go] at hr; subst hr; simp at hn
          | resume ex =>
            cases ex with
            | true => simp [write_go] at hr; subst hr; simp at hn
            | false => simp [write_go] at hr; subst hr; simp at hn
    | cons b bs =>
      cases tr with
      | nil => simp [write_go] at hr; subst hr; simp at hn
      | cons ev tr' =>
        cases ev with
        | resume ex => simp [write_go] at hr; subst hr; simp at hn
        | sys s =>
          cases s with
          | ok m =>
            simp only [write_go, List.isEmpty_cons, Bool.false_eq_true,
              if_false] at hr
            exact ih _ _ _ _ _ _ hr e hn
          | err e' =>
            by_cases hwb : is_would_block e'
            · cases tr' with
              | nil => simp [write_go, hwb] at hr; subst hr; simp at hn
              | cons ev2 tr'' =>
                cases ev2 with
                | sys s2 => simp [write_go, hwb] at hr; subst hr; simp at hn
                | resume ex =>
                  cases ex with
                  | true => simp [write_go, hwb] at hr; subst hr; simp at hn
                  | false =>
                    simp only [write_go, List.isEmpty_cons, Bool.false_eq_true,
                      if_false, hwb, if_true, Bool.true_eq_false] at hr
                    exact ih _ _ _ _ _ _ hr e hn
            · simp [write_go, hwb] at hr
              subst hr
              simp at hn
              subst hn
              simpa using hwb

/-- A non-would-block errno on the first write syscall of a non-empty
string is surfaced at once. -/
theorem write_first_err (e : Nat) (he : is_would_block e = false)
    (b : Nat) (bs : List Nat) (tr : List Event) :
    (Backend_write (b :: bs) (Event.sys (SysRes.err e) :: tr)).out = IOOut.syserr e := by
  simp [Backend_write, write_go, he]

/-- C2 (confirmed): for every string `s` and every environment trace, a
`Backend_write` run that returns normally has looped over all short writes,
transmitting every byte of `s` to the fd in order, and its return value is
`len(s)`. -/
theorem C2_write_transmits_all_and_returns_length (s : List Nat) (tr : List Event)
    (n : Nat) (h : (Backend_write s tr).out = IOOut.ret n) :
    n = s.length ∧ (Backend_write s tr).written = s := by
  have := write_go_ok (tr.length + 1) [] s false s.length tr _ rfl n h
  simpa using this

/-- C2 witness: a run with a short write, a would-block suspension and a
final short write returns `3 = len(s)` and transmits `[1, 2, 3]`. -/
theorem C2_write_transmits_all_and_returns_length_witness :
    (Backend_write [1, 2, 3] [Event.sys (SysRes.ok 2), Event.sys (SysRes.err 11),
      Event.resume false, Event.sys (SysRes.ok 5)]).out = IOOut.ret 3 ∧
    3 = 3 ∧ (Backend_write [1, 2, 3] [Event.sys (SysRes.ok 2), Event.sys (SysRes.err 11),
      Event.resume false, Event.sys (SysRes.ok 5)]).written = [1, 2, 3] :=
  ⟨by decide, C2_write_transmits_all_and_returns_length [1, 2, 3]
    [Event.sys (SysRes.ok 2), Event.sys (SysRes.err 11), Event.resume false,
     Event.sys (SysRes.ok 5)] 3 (by decide)⟩

/-! ## Invariants of the read loop -/

/-- A `read_go` run that returns `Qnil` has read nothing from the fd, and
one that returns a string has read a non-empty suffix of bytes appended, in
order, behind the preserved head and the bytes already read. -/
theorem read_go_spec : ∀ (fuel : Nat) (kept : List Nat) (dyn toEof : Bool)
    (src acc : List Nat) (len : Nat) (tr : List Event) (r : ReadRes),
    read_go fuel kept dyn toEof src acc len tr = r →
    (r.out = ReadOut.retNil → acc = [] ∧ r.src = src) ∧
    (∀ l, r.out = ReadOut.retStr l → ∃ k, k ≤ src.length ∧
      l = kept ++ acc ++ src.take k ∧ r.src = src.drop k ∧ acc ++ src.take k ≠ []) := by
  intro fuel
  induction fuel with
  | zero =>
    intro kept dyn toEof src acc len tr r hr
    rw [read_go] at hr
    subst hr
    exact ⟨by simp, by simp⟩
  | succ f ih =>
    intro kept dyn toEof src acc len tr r hr
    cases tr with
    | nil =>
      simp [read_go] at hr
      subst hr
      exact ⟨by simp, by simp⟩
    | cons ev tr' =>
      cases ev with
      | resume ex =>
        simp [read_go] at hr
        subst hr
        exact ⟨by simp, by simp⟩
      | sys s =>
        cases s with
        | err e =>
          by_cases hwb : is_would_block e
          · cases tr' with
            | nil =>
              simp [read_go, hwb] at hr
              subst hr
              exact ⟨by simp, by simp⟩
            | cons ev2 tr'' =>
              cases ev2 with
              | sys s2 =>
                simp [read_go, hwb] at hr
                subst hr
                exact ⟨by simp, by simp⟩
              | resume ex =>
                cases ex with
                | true =>
                  simp [read_go, hwb] at hr
                  subst hr
                  exact ⟨by simp, by simp⟩
                | false =>
                  simp only [read_go, hwb, if_true, Bool.true_eq_false] at hr
                  exact ih _ _ _ _ _ _ _ _ hr
          · simp [read_go, hwb] at hr
            subst hr
            exact ⟨by simp, by simp⟩
        | ok m =>
          cases tr' with
          | nil =>
            simp [read_go] at hr
            subst hr
            exact ⟨by simp, by simp⟩
          | cons ev2 tr'' =>
            cases ev2 with
            | sys s2 =>
              simp [read_go] at hr
              subst hr
              exact ⟨by simp, by simp⟩
            | resume ex =>
              cases ex with
              | true =>
                simp [read_go] at hr
                subst hr
                exact ⟨by simp, by simp⟩
              | false =>
                rw [read_go] at hr
                simp only [Bool.false_eq_true, if_false] at hr
                set a := min (min m (len - acc.length)) src.length with ha
                have hlea : a ≤ src.length := by rw [ha]; exact min_le_right _ _
                by_cases ha0 : a = 0
                · rw [ha0] at hr
                  simp only [Nat.zero_le, List.drop_zero, beq_self_eq_true,
                    if_true] at hr
                  by_cases hacc : acc.isEmpty
                  · simp only [hacc, if_true] at hr
                    subst hr
                    refine ⟨fun _ => ⟨List.isEmpty_iff.mp hacc, rfl⟩, by simp⟩
                  · simp only [hacc, Bool.false_eq_true, if_false] at hr
                    subst hr
                    refine ⟨by simp, fun l hl => ?_⟩
                    refine ⟨0, by simp, ?_, by simp, ?_⟩
                    · simpa using hl.symm
                    · simpa using List.isEmpty_iff.not.mp (by simpa using hacc)
                · have hbeq : (a == 0) = false := by simpa using ha0
                  rw [hbeq] at hr
                  simp only [Bool.false_eq_true, if_false] at hr
                  have htake : src.take a ≠ [] := by
                    intro hcon
                    rcases List.take_eq_nil_iff.mp hcon with h | h
                    · exact ha0 h
                    · rw [h] at hlea
                      simp at hlea
                      exact ha0 (by omega)
                  have hne : acc ++ src.take a ≠ [] := by
                    intro hcon
                    exact htake (List.append_eq_nil.mp hcon).2
                  have combine : ∀ (len₂ : Nat),
                      read_go f kept dyn toEof (src.drop a) (acc ++ src.take a) len₂ tr'' = r →
                      (r.out = ReadOut.retNil → acc = [] ∧ r.src = src) ∧
                      (∀ l, r.out = ReadOut.retStr l → ∃ k, k ≤ src.length ∧
                        l = kept ++ acc ++ src.take k ∧ r.src = src.drop k ∧
                        acc ++ src.take k ≠ []) := by
                    intro len₂ hrec
                    obtain ⟨hnil, hstr⟩ := ih kept dyn toEof (src.drop a)
                      (acc ++ src.take a) len₂ tr'' r hrec
                    constructor
                    · intro h0
                      exact absurd (hnil h0).1 hne
                    · intro l hl
                      obtain ⟨k', hk1, hk2, hk3, hk4⟩ := hstr l hl
                      have hdl : (src.drop a).length = src.length - a :=
                        List.length_drop a src
                      refine ⟨a + k', by omega, ?_, ?_, ?_⟩
                      · rw [hk2, List.take_add]
                        simp [List.append_assoc]
                      · rw [hk3, List.drop_drop, Nat.add_comm]
                      · intro hcon
                        obtain ⟨h1, h2⟩ := List.append_eq_nil.mp hcon
                        rw [List.take_add] at h2
                        exact htake (List.append_eq_nil.mp h2).1
                  cases toEof with
                  | false =>
                    have hq : (acc ++ src.take a).isEmpty = false := by
                      simpa [List.isEmpty_iff] using hne
                    simp only [Bool.not_false, if_true, hq, Bool.false_eq_true,
                      if_false] at hr
                    subst hr
                    refine ⟨by simp, fun l hl => ?_⟩
                    refine ⟨a, hlea, ?_, rfl, hne⟩
                    simpa [List.append_assoc] using hl.symm
                  | true =>
                    simp only [Bool.not_true, Bool.false_eq_true, if_false] at hr
                    by_cases hlen : ((acc ++ src.take a).length == len) = true
                    · rw [hlen] at hr
                      simp only [if_true] at hr
                      cases dyn with
                      | true =>
                        simp only [if_true] at hr
                        exact combine _ hr
                      | false =>
                        have hq : (acc ++ src.take a).isEmpty = false := by
                          simpa [List.isEmpty_iff] using hne
                        simp only [Bool.false_eq_true, if_false, hq] at hr
                        subst hr
                        refine ⟨by simp, fun l hl => ?_⟩
                        refine ⟨a, hlea, ?_, rfl, hne⟩
                        simpa [List.append_assoc] using hl.symm
                    · have hlf : ((acc ++ src.take a).length == len) = false := by
                        simpa using hlen
                      rw [hlf] at hr
                      simp only [Bool.false_eq_true, if_false] at hr
                      exact combine _ hr

/-- A `read_go` run never surfaces a would-block errno. -/
theorem read_go_syserr : ∀ (fuel : Nat) (kept : List Nat) (dyn toEof : Bool)
    (src acc : List Nat) (len : Nat) (tr : List Event) (r : ReadRes),
    read_go fuel kept dyn toEof src acc len tr = r → ∀ e, r.out = ReadOut.syserr e →
    is_would_block e = false := by
  intro fuel
  induction fuel with
  | zero =>
    intro kept dyn toEof src acc len tr r hr e hn
    rw [read_go] at hr
    subst hr
    simp at hn
  | succ f ih =>
    intro kept dyn toEof src acc len tr r hr e hn
    cases tr with
    | nil => simp [read_go] at hr; subst hr; simp at hn
    | cons ev tr' =>
      cases ev with
      | resume ex => simp [read_go] at hr; subst hr; simp at hn
      | sys s =>
        cases s with
        | err e' =>
          by_cases hwb : is_would_block e'
          · cases tr' with
            | nil => simp [read_go, hwb] at hr; subst hr; simp at hn
            | cons ev2 tr'' =>
              cases ev2 with
              | sys s2 => simp [read_go, hwb] at hr; subst hr; simp at hn
              | resume ex =>
                cases ex with
                | true => simp [read_go, hwb] at hr; subst hr; simp at hn
                | false =>
                  simp only [read_go, hwb, if_true, Bool.true_eq_false] at hr
                  exact ih _ _ _ _ _ _ _ _ hr e hn
          · simp [read_go, hwb] at hr
            subst hr
            simp at hn
            subst hn
            simpa using hwb
        | ok m =>
          cases tr' with
          | nil => simp [read_go] at hr; subst hr; simp at hn
          | cons ev2 tr'' =>
            cases ev2 with
            | sys s2 => simp [read_go] at hr; subst hr; simp at hn
            | resume ex =>
              cases ex with
              | true => simp [read_go] at hr; subst hr; simp at hn
              | false =>
                rw [read_go] at hr
                simp only [Bool.false_eq_true, if_false] at hr
                set a := min (min m (len - acc.length)) src.length with ha
                by_cases ha0 : a = 0
                · rw [ha0] at hr
                  simp only [beq_self_eq_true, if_true] at hr
                  by_cases hacc : acc.isEmpty
                  · simp only [hacc, if_true] at hr; subst hr; simp at hn
                  · simp only [hacc, Bool.false_eq_true, if_false] at hr
                    subst hr
                    simp at hn
                · have hbeq : (a == 0) = false := by simpa using ha0
                  rw [hbeq] at hr
                  simp only [Bool.false_eq_true, if_false] at hr
                  cases toEof with
                  | false =>
                    by_cases hq : (acc ++ src.take a).isEmpty
                    · simp only [Bool.not_false, if_true, hq] at hr
                      subst hr
                      simp at hn
                    · simp only [Bool.not_false, if_true,
                        Bool.not_eq_true] at hr
                      rw [Bool.eq_false_iff.mpr hq] at hr
                      simp only [Bool.false_eq_true, if_false] at hr
                      subst hr
                      simp at hn
                  | true =>
                    simp only [Bool.not_true, Bool.false_eq_true, if_false] at hr
                    by_cases hlen : ((acc ++ src.take a).length == len) = true
                    · rw [hlen] at hr
                      simp only [if_true] at hr
                      cases dyn with
                      | true =>
                        simp only [if_true] at hr
                        exact ih _ _ _ _ _ _ _ _ hr e hn
                      | false =>
                        simp only [Bool.false_eq_true, if_false] at hr
                        by_cases hq : (acc ++ src.take a).isEmpty
                        · simp only [hq, if_true] at hr; subst hr; simp at hn
                        · rw [Bool.eq_false_iff.mpr hq] at hr
                          simp only [Bool.false_eq_true, if_false] at hr
                          subst hr
                          simp at hn
                    · have hlf : ((acc ++ src.take a).length == len) = false := by
                        simpa using hlen
                      rw [hlf] at hr
                      simp only [Bool.false_eq_true, if_false] at hr
                      exact ih _ _ _ _ _ _ _ _ hr e hn

/-- The clamped write position never exceeds the initial string length. -/
theorem clamp_pos_le (str : Option (List Nat)) (pos : Int) :
    clamp_pos str pos ≤ (str.getD []).length := by
  cases str with
  | none => simp [clamp_pos]
  | some s =>
    simp only [clamp_pos, Option.getD_some]
    split
    · exact le_rfl
    · rename_i h
      simp only [Bool.or_eq_true, decide_eq_true_eq, not_or] at h
      omega

/-- C8 (confirmed): a finished `Backend_read` returns nil exactly on an
immediate EOF — zero bytes were consumed from the fd — and otherwise
returns the kept string head followed by the `k > 0` bytes actually read,
i.e. the string truncated to `buf_pos + k`. -/
theorem C8_read_nil_or_truncated (str : Option (List Nat)) (length : Option Nat)
    (to_eof : RVal) (pos : Int) (src : List Nat) (tr : List Event) :
    ((Backend_read str length to_eof pos src tr).out = ReadOut.retNil →
      (Backend_read str length to_eof pos src tr).src = src) ∧
    (∀ l, (Backend_read str length to_eof pos src tr).out = ReadOut.retStr l →
      ∃ k, 0 < k ∧ k ≤ src.length ∧
        l = (str.getD []).take (clamp_pos str pos) ++ src.take k ∧
        (Backend_read str length to_eof pos src tr).src = src.drop k ∧
        l.length = clamp_pos str pos + k) := by
  obtain ⟨hnil, hstr⟩ := read_go_spec (tr.length + 1)
    ((str.getD []).take (clamp_pos str pos)) length.isNone (RTEST to_eof)
    src [] (length.getD 4096) tr (Backend_read str length to_eof pos src tr) rfl
  constructor
  · intro h0
    exact (hnil h0).2
  · intro l hl
    obtain ⟨k, hk1, hk2, hk3, hk4⟩ := hstr l hl
    have hkpos : 0 < k := by
      rcases Nat.eq_zero_or_pos k with h | h
      · subst h
        simp at hk4
      · exact h
    refine ⟨k, hkpos, hk1, by simpa using hk2, hk3, ?_⟩
    have h1 : ((str.getD []).take (clamp_pos str pos)).length = clamp_pos str pos := by
      rw [List.length_take]
      exact Nat.min_eq_left (clamp_pos_le str pos)
    have h2 : (src.take k).length = k := by
      rw [List.length_take]
      exact Nat.min_eq_left hk1
    rw [hk2]
    simp [h1, h2]

/-- C8 witness: reading at position 1 of `"\x07\x07"` from an fd holding
three bytes returns the truncated string `[7, 1, 2, 3]`. -/
theorem C8_read_nil_or_truncated_witness :
    ∃ k, 0 < k ∧ k ≤ ([1, 2, 3] : List Nat).length ∧
      ([7, 1, 2, 3] : List Nat) = ((some [7, 7] : Option (List Nat)).getD []).take
        (clamp_pos (some [7, 7]) 1) ++ ([1, 2, 3] : List Nat).take k ∧
      (Backend_read (some [7, 7]) (some 4) (RVal.num 1) 1 [1, 2, 3]
        [Event.sys (SysRes.ok 10), Event.resume false, Event.sys (SysRes.ok 10),
         Event.resume false]).src = ([1, 2, 3] : List Nat).drop k ∧
      ([7, 1, 2, 3] : List Nat).length = clamp_pos (some [7, 7]) 1 + k :=
  (C8_read_nil_or_truncated (some [7, 7]) (some 4) (RVal.num 1) 1 [1, 2, 3]
    [Event.sys (SysRes.ok 10), Event.resume false, Event.sys (SysRes.ok 10),
     Event.resume false]).2 [7, 1, 2, 3] (by decide)

/-- C10 (confirmed): `Backend_recv` is extensionally the single-shot
`Backend_read` with a nil (falsy) `to_eof`: identical return value, fd
effect and error behaviour on every input and trace. -/
theorem C10_recv_is_read_without_to_eof (str : Option (List Nat))
    (length : Option Nat) (pos : Int) (src : List Nat) (tr : List Event) :
    Backend_recv str length pos src tr = Backend_read str length RVal.nil pos src tr ∧
    RTEST RVal.nil = false :=
  ⟨rfl, rfl⟩

/-! ## Errno dispatch (claims C5, C6) -/

/-- `Backend_connect` surfaces an errno only when it is not EINPROGRESS. -/
theorem connect_syserr (tr : List Event) (e : Nat)
    (h : (Backend_connect tr).out = ConnectOut.syserr e) : e ≠ EINPROGRESS := by
  cases tr with
  | nil => simp [Backend_connect] at h
  | cons ev tr' =>
    cases ev with
    | resume ex => simp [Backend_connect] at h
    | sys s =>
      cases s with
      | ok m =>
        cases tr' with
        | nil => simp [Backend_connect] at h
        | cons ev2 tr'' =>
          cases ev2 with
          | sys s2 => simp [Backend_connect] at h
          | resume ex => cases ex <;> simp [Backend_connect] at h
      | err e' =>
        by_cases hp : (e' == EINPROGRESS) = true
        · cases tr' with
          | nil => simp [Backend_connect, hp] at h
          | cons ev2 tr'' =>
            cases ev2 with
            | sys s2 => simp [Backend_connect, hp] at h
            | resume ex => cases ex <;> simp [Backend_connect, hp] at h
        · have hp' : (e' == EINPROGRESS) = false := by simpa using hp
          simp [Backend_connect, hp'] at h
          subst h
          simpa using hp

/-- A non-would-block errno on the first read syscall is surfaced at
once. -/
theorem read_first_err (e : Nat) (he : is_would_block e = false)
    (str : Option (List Nat)) (length : Option Nat) (to_eof : RVal) (pos : Int)
    (src : List Nat) (tr : List Event) :
    (Backend_read str length to_eof pos src
      (Event.sys (SysRes.err e) :: tr)).out = ReadOut.syserr e := by
  simp [Backend_read, read_go, he]

/-- An errno other than EINPROGRESS on the connect syscall is surfaced at
once. -/
theorem connect_first_err (e : Nat) (he : e ≠ EINPROGRESS) (tr : List Event) :
    (Backend_connect (Event.sys (SysRes.err e) :: tr)).out = ConnectOut.syserr e := by
  have h : (e == EINPROGRESS) = false := by simpa using he
  simp [Backend_connect, h]

/-- C5 counterexample: `Backend_connect` hit by errno EAGAIN — an errno in
{EWOULDBLOCK, EAGAIN, EINPROGRESS} — raises `SyscallFailure(EAGAIN)`
instead of suspending, refuting the claim as stated. -/
theorem C5_counterexample :
    (Backend_connect [Event.sys (SysRes.err EAGAIN)]).out = ConnectOut.syserr EAGAIN ∧
    (EAGAIN == EWOULDBLOCK || EAGAIN == EAGAIN || EAGAIN == EINPROGRESS) = true := by
  decide

/-- C5 (corrected): the suspending errno set is per-operation.  Read/write
style ops never surface EWOULDBLOCK/EAGAIN and surface every other errno
(including EINPROGRESS); `connect` never surfaces EINPROGRESS and surfaces
every other errno (including EWOULDBLOCK/EAGAIN). -/
theorem C5_errno_dispatch_per_op :
    (∀ s tr e, (Backend_write s tr).out = IOOut.syserr e → is_would_block e = false) ∧
    (∀ str length to_eof pos src tr e,
      (Backend_read str length to_eof pos src tr).out = ReadOut.syserr e →
      is_would_block e = false) ∧
    (∀ tr e, (Backend_connect tr).out = ConnectOut.syserr e → e ≠ EINPROGRESS) ∧
    (∀ e b bs tr, is_would_block e = false →
      (Backend_write (b :: bs) (Event.sys (SysRes.err e) :: tr)).out = IOOut.syserr e) ∧
    (∀ e str length to_eof pos src tr, is_would_block e = false →
      (Backend_read str length to_eof pos src
        (Event.sys (SysRes.err e) :: tr)).out = ReadOut.syserr e) ∧
    (∀ e tr, e ≠ EINPROGRESS →
      (Backend_connect (Event.sys (SysRes.err e) :: tr)).out = ConnectOut.syserr e) := by
  refine ⟨?_, ?_, ?_, ?_, ?_, ?_⟩
  · intro s tr e h
    exact write_go_syserr (tr.length + 1) [] s false s.length tr _ rfl e h
  · intro str length to_eof pos src tr e h
    exact read_go_syserr (tr.length + 1) _ _ _ _ _ _ tr _ rfl e h
  · exact connect_syserr
  · intro e b bs tr he
    exact write_first_err e he b bs tr
  · intro e str length to_eof pos src tr he
    exact read_first_err e he str length to_eof pos src tr
  · intro e tr he
    exact connect_first_err e he tr

/-- C5 witness: errno 9 (EBADF) is outside every suspending set and is
surfaced by both `Backend_write` and `Backend_connect`. -/
theorem C5_errno_dispatch_per_op_witness :
    is_would_block 9 = false ∧ (9 : Nat) ≠ EINPROGRESS ∧
    (Backend_write [1] [Event.sys (SysRes.err 9)]).out = IOOut.syserr 9 ∧
    (Backend_connect [Event.sys (SysRes.err 9)]).out = ConnectOut.syserr 9 :=
  ⟨by decide, by decide,
   C5_errno_dispatch_per_op.2.2.2.1 9 1 [] [] (by decide),
   C5_errno_dispatch_per_op.2.2.2.2.2 9 [] (by decide)⟩

/-- C6 counterexample: a read and a write hit by errno EINTR raise
`SyscallFailure(EINTR)` — the syscall is not retried, refuting the claim
that EINTR never raises. -/
theorem C6_counterexample :
    (Backend_read none none RVal.nil 0 [5]
      [Event.sys (SysRes.err EINTR)]).out = ReadOut.syserr EINTR ∧
    (Backend_write [5] [Event.sys (SysRes.err EINTR)]).out = IOOut.syserr EINTR := by
  decide

/-- C6 (corrected): EINTR is not in the would-block set, so a syscall
failing with EINTR is surfaced as `SyscallFailure(EINTR)` like any other
non-would-block errno; it is neither retried nor suspended on. -/
theorem C6_eintr_surfaced (tr : List Event) :
    is_would_block EINTR = false ∧
    (∀ b bs, (Backend_write (b :: bs)
      (Event.sys (SysRes.err EINTR) :: tr)).out = IOOut.syserr EINTR) ∧
    (∀ str length to_eof pos src, (Backend_read str length to_eof pos src
      (Event.sys (SysRes.err EINTR) :: tr)).out = ReadOut.syserr EINTR) := by
  refine ⟨by decide, ?_, ?_⟩
  · intro b bs
    exact write_first_err EINTR (by decide) b bs tr
  · intro str length to_eof pos src
    exact read_first_err EINTR (by decide) str length to_eof pos src tr

/-! ## Claim C1: the RW watcher refcount -/

/-- Iterating the RW callback from a context with refcount `n`: the fiber
is made runnable exactly when more than `n` callbacks have fired, since the
wake requires an observed (pre-decrement) refcount of zero. -/
theorem rw_callback_iterate (n k : Nat) :
    Backend_rw_io_callback^[k] ⟨(n : Int), false⟩ = ⟨(n : Int) - k, decide (n < k)⟩ := by
  induction k with
  | zero => simp
  | succ k ih =>
    rw [Function.iterate_succ_apply', ih]
    simp only [Backend_rw_io_callback, RwCtx.mk.injEq]
    constructor
    · push_cast
      ring
    · have h1 : ((n : Int) - (k : Int) == 0) = decide (n = k) := by
        by_cases h : n = k
        · subst h
          simp
        · have hne : (n : Int) - (k : Int) ≠ 0 := by
            omega
          simp [h, hne]
      rw [h1]
      by_cases h2 : n < k + 1
      · have h3 : n < k ∨ n = k := by omega
        rcases h3 with h3 | h3 <;> simp [h3, h2]
      · have h3 : ¬ n < k := by omega
        have h4 : n ≠ k := by omega
        simp [h2, h3, h4]

/-- C1 counterexample: with both watchers registered the shared refcount is
2, and the first `Backend_rw_io_callback` invocation observes 2 ≠ 0, so it
does not make the waiting fiber runnable. -/
theorem C1_counterexample :
    (Backend_rw_io_callback (libev_rw_register true true)).runnable = false := by
  decide

/-- C1 (corrected): the callback wakes the fiber only when it observes a
pre-decrement refcount of zero.  With both watchers registered (refcount 2)
the fiber becomes runnable exactly after more than two callback invocations
— i.e. on the third, which the level-triggered watchers deliver on a later
loop iteration — and never after the first. -/
theorem C1_rw_wake_needs_refcount_exceeded (k : Nat) :
    (Backend_rw_io_callback^[k] (libev_rw_register true true)).runnable =
      decide (2 < k) := by
  have hreg : libev_rw_register true true = ⟨(2 : Int), false⟩ := by
    simp [libev_rw_register]
  have h2 := rw_callback_iterate 2 k
  norm_num at h2
  rw [hreg, h2]

/-! ## Claim C3: the timeout frame -/

/-- C3 (confirmed): on every exit path of the protected block the timer is
stopped; a block result that is this frame's sentinel turns into
`move_on_value` (no exception ctor) or a fresh exception from the ctor; any
other result is propagated unchanged — re-raised if it is an exception
(including another frame's sentinel), returned otherwise. -/
theorem C3_timeout_contract (myId : Nat) (exception : Option Nat)
    (move_on_value : RVal) (blockRes : BlockRes) :
    (Backend_timeout myId exception move_on_value blockRes).timerStopped = true ∧
    (timeout_protected blockRes = RVal.sentinel myId →
      (Backend_timeout myId exception move_on_value blockRes).outcome =
        match exception with
        | none => TimeoutOut.ret move_on_value
        | some ctor => TimeoutOut.raisedFresh ctor) ∧
    (timeout_protected blockRes ≠ RVal.sentinel myId →
      (is_exception (timeout_protected blockRes) = true →
        (Backend_timeout myId exception move_on_value blockRes).outcome =
          TimeoutOut.raisedVal (timeout_protected blockRes)) ∧
      (is_exception (timeout_protected blockRes) = false →
        (Backend_timeout myId exception move_on_value blockRes).outcome =
          TimeoutOut.ret (timeout_protected blockRes))) := by
  refine ⟨rfl, ?_, ?_⟩
  · intro h
    simp [Backend_timeout, h]
  · intro h
    constructor
    · intro hx
      simp [Backend_timeout, h, hx]
    · intro hx
      simp [Backend_timeout, h, hx]

/-- C3 witness: a frame whose block was resumed with the frame's own
sentinel returns the move-on value with the timer stopped, while an outer
frame hit by an inner frame's sentinel re-raises it unchanged. -/
theorem C3_timeout_contract_witness :
    (Backend_timeout 0 none (RVal.num 7) (BlockRes.raised (RVal.sentinel 0))).timerStopped
      = true ∧
    (Backend_timeout 0 none (RVal.num 7) (BlockRes.raised (RVal.sentinel 0))).outcome
      = TimeoutOut.ret (RVal.num 7) ∧
    (Backend_timeout 1 (some 5) RVal.nil (BlockRes.raised (RVal.sentinel 0))).outcome
      = TimeoutOut.raisedVal (RVal.sentinel 0) :=
  ⟨(C3_timeout_contract 0 none (RVal.num 7) (BlockRes.raised (RVal.sentinel 0))).1,
   by simpa using (C3_timeout_contract 0 none (RVal.num 7)
     (BlockRes.raised (RVal.sentinel 0))).2.1 rfl,
   ((C3_timeout_contract 1 (some 5) RVal.nil
     (BlockRes.raised (RVal.sentinel 0))).2.2 (by decide)).1 (by decide)⟩

/-! ## Claim C7: the timer-loop deadline advance -/

/-- C7 (confirmed): with a positive interval and enough fuel, the do-while
`do { next_time += interval; } while (next_time <= now);` lands strictly
beyond `now`, on a positive whole number of interval steps from the old
deadline (drift-free), and except when a single step sufficed the previous
step was still `≤ now` (missed ticks coalesce into one advance past
`now`). -/
theorem C7_timer_advance (fuel : Nat) (interval now nt : ℚ)
    (hf : 0 < fuel) (_hi : 0 < interval) (hfe : now < nt + fuel * interval) :
    now < timer_loop_advance fuel interval now nt ∧
    ∃ k : Nat, timer_loop_advance fuel interval now nt = nt + ((k : ℚ) + 1) * interval ∧
      k + 1 ≤ fuel ∧ (k = 0 ∨ nt + (k : ℚ) * interval ≤ now) := by
  induction fuel generalizing nt with
  | zero => omega
  | succ f ih =>
    by_cases h : nt + interval ≤ now
    · have heq : timer_loop_advance (f + 1) interval now nt
          = timer_loop_advance f interval now (nt + interval) := by
        rw [timer_loop_advance]
        exact if_pos h
      have hfq : 0 < (f : ℚ) * interval := by
        push_cast at hfe
        nlinarith
      have hf' : 0 < f := by
        rcases Nat.eq_zero_or_pos f with h0 | h0
        · subst h0
          simp at hfq
        · exact h0
      have hfe' : now < (nt + interval) + f * interval := by
        push_cast at hfe ⊢
        linarith
      obtain ⟨hlt, k, hk1, hk2, hk3⟩ := ih (nt + interval) hf' hfe'
      refine ⟨heq ▸ hlt, k + 1, ?_, by omega, Or.inr ?_⟩
      · rw [heq, hk1]
        push_cast
        ring
      · rcases hk3 with h0 | h0
        · subst h0
          push_cast
          linarith
        · push_cast at h0 ⊢
          linarith
    · have heq : timer_loop_advance (f + 1) interval now nt = nt + interval := by
        rw [timer_loop_advance]
        exact if_neg h
      refine ⟨?_, 0, ?_, by omega, Or.inl rfl⟩
      · rw [heq]
        linarith [not_le.mp h]
      · rw [heq]
        push_cast
        ring

/-- C7 witness: interval 1, `now = 5`, deadline 3: the advance runs three
steps to 6, the previous step 5 being still `≤ now`. -/
theorem C7_timer_advance_witness :
    0 < 9 ∧ (0 : ℚ) < 1 ∧ (5 : ℚ) < 3 + 9 * 1 ∧
    (5 : ℚ) < timer_loop_advance 9 1 5 3 ∧
    (∃ k : Nat, timer_loop_advance 9 1 5 3 = 3 + ((k : ℚ) + 1) * 1 ∧
      k + 1 ≤ 9 ∧ (k = 0 ∨ 3 + (k : ℚ) * 1 ≤ 5)) :=
  ⟨by norm_num, by norm_num, by norm_num,
   (C7_timer_advance 9 1 5 3 (by norm_num) (by norm_num) (by norm_num)).1,
   (C7_timer_advance 9 1 5 3 (by norm_num) (by norm_num) (by norm_num)).2⟩

/-! ## Claim C9: chain dispatch -/

/-- An op failing the kind/arity validation falls through the dispatch
cascade to the `rb_raise`. -/
theorem chain_exec_op_invalid (op : List ChainArg) (st : ChainState)
    (tr : List Event) (h : op_valid op = false) :
    chain_exec_op op st tr = ChainRes.invalidOp st tr := by
  simp only [op_valid, Bool.or_eq_false_iff, Bool.and_eq_false_iff] at h
  obtain ⟨⟨h1, h2⟩, h3⟩ := h
  rcases h1 with h1 | h1 <;> rcases h2 with h2 | h2 <;> rcases h3 with h3 | h3 <;>
    simp [chain_exec_op, h1, h2, h3]

/-- `Backend_chain` over a concatenation: run the first list, then the
second from the state and trace the first one reached. -/
theorem chain_append (l1 l2 : List (List ChainArg)) : ∀ (r : RVal) (st : ChainState)
    (tr : List Event), Backend_chain (l1 ++ l2) r st tr =
      match Backend_chain l1 r st tr with
      | .ok r' st' tr' => Backend_chain l2 r' st' tr'
      | other => other := by
  induction l1 with
  | nil =>
    intro r st tr
    simp [Backend_chain]
  | cons op ops ih =>
    intro r st tr
    rw [List.cons_append, Backend_chain, Backend_chain]
    cases h : chain_exec_op op st tr with
    | ok r' st' tr' => exact ih r' st' tr'
    | invalidOp st' tr' => rfl
    | typeErr st' tr' => rfl
    | syserr e st' tr' => rfl
    | exn st' tr' => rfl
    | stuck => rfl

/-- C9 (confirmed): `Backend_chain` executes its ops in order — after any
successfully executed prefix, an op of unknown kind or wrong arity raises
the invalid-op error, and the chain's value is the result of the last op
run from the state the earlier ops produced. -/
theorem C9_chain_order_and_arity :
    (∀ (done : List (List ChainArg)) (bad : List ChainArg)
      (rest : List (List ChainArg)) (r : RVal) (st : ChainState) (tr : List Event)
      (r1 : RVal) (st1 : ChainState) (tr1 : List Event),
      op_valid bad = false →
      Backend_chain done r st tr = ChainRes.ok r1 st1 tr1 →
      Backend_chain (done ++ bad :: rest) r st tr = ChainRes.invalidOp st1 tr1) ∧
    (∀ (ops : List (List ChainArg)) (lastOp : List ChainArg) (r : RVal)
      (st : ChainState) (tr : List Event),
      Backend_chain (ops ++ [lastOp]) r st tr =
        match Backend_chain ops r st tr with
        | .ok r' st' tr' => chain_exec_op lastOp st' tr'
        | other => other) := by
  constructor
  · intro done bad rest r st tr r1 st1 tr1 hbad hdone
    rw [chain_append, hdone]
    simp only [Backend_chain, chain_exec_op_invalid bad st1 tr1 hbad]
  · intro ops lastOp r st tr
    rw [chain_append]
    cases h : Backend_chain ops r st tr with
    | ok r' st' tr' =>
      cases h2 : chain_exec_op lastOp st' tr' <;> simp [Backend_chain, h2]
    | invalidOp st' tr' => rfl
    | typeErr st' tr' => rfl
    | syserr e st' tr' => rfl
    | exn st' tr' => rfl
    | stuck => rfl

/-- C9 witness: an op with an unknown kind symbol makes the chain raise the
invalid-op error from the state left by the (empty) successful prefix. -/
theorem C9_chain_order_and_arity_witness :
    op_valid [ChainArg.symOther 0] = false ∧
    Backend_chain ([] ++ [ChainArg.symOther 0] :: []) RVal.nil
      ⟨fun _ => [], fun _ => []⟩ [] =
      ChainRes.invalidOp ⟨fun _ => [], fun _ => []⟩ [] :=
  ⟨by decide,
   C9_chain_order_and_arity.1 [] [ChainArg.symOther 0] [] RVal.nil
     ⟨fun _ => [], fun _ => []⟩ [] RVal.nil ⟨fun _ => [], fun _ => []⟩ []
     (by decide) rfl⟩

/-! ## Claim C4: the splice_chunks pipeline -/

/-- A successful `splice_chunks_write` appends exactly its string to the
destination stream and touches neither the source nor the pipe. -/
theorem sc_write_ok : ∀ (fuel : Nat) (st : SCState) (buf : List Nat)
    (tr : List Event) (v : Nat) (st' : SCState) (tr' : List Event),
    sc_write fuel st buf tr = SCRes.ok v st' tr' →
    st'.src = st.src ∧ st'.pipe = st.pipe ∧ st'.dest = st.dest ++ buf := by
  intro fuel
  induction fuel with
  | zero =>
    intro st buf tr v st' tr' h
    rw [sc_write] at h
    simp at h
  | succ f ih =>
    intro st buf tr v st' tr' h
    cases buf with
    | nil =>
      simp [sc_write] at h
      obtain ⟨_, h2, h3⟩ := h
      subst h2
      simp
    | cons b bs =>
      cases tr with
      | nil => simp [sc_write] at h
      | cons ev tr2 =>
        cases ev with
        | resume ex => simp [sc_write] at h
        | sys s =>
          cases s with
          | ok m =>
            simp only [sc_write, List.isEmpty_cons, Bool.false_eq_true,
              if_false] at h
            obtain ⟨h1, h2, h3⟩ := ih _ _ _ _ _ _ h
            refine ⟨h1, h2, ?_⟩
            rw [h3]
            simp [List.append_assoc]
          | err e =>
            by_cases hwb : is_would_block e
            · cases tr2 with
              | nil => simp [sc_write, hwb] at h
              | cons ev2 tr3 =>
                cases ev2 with
                | sys s2 => simp [sc_write, hwb] at h
                | resume ex =>
                  cases ex with
                  | true => simp [sc_write, hwb] at h
                  | false =>
                    simp only [sc_write, List.isEmpty_cons, Bool.false_eq_true,
                      if_false, hwb, if_true, Bool.true_eq_false] at h
                    obtain ⟨h1, h2, h3⟩ := ih _ _ _ _ _ _ h
                    exact ⟨h1, h2, h3⟩
            · simp [sc_write, hwb] at h

/-- A successful source-to-pipe `splice_chunks_splice` moves `a ≤ maxlen`
bytes off the front of the source onto the back of the pipe. -/
theorem sc_splice_toPipe_ok : ∀ (fuel : Nat) (st : SCState) (maxlen : Nat)
    (tr : List Event) (a : Nat) (st' : SCState) (tr' : List Event),
    sc_splice fuel st SCDir.toPipe maxlen tr = SCRes.ok a st' tr' →
    st'.src = st.src.drop a ∧ st'.pipe = st.pipe ++ st.src.take a ∧
    st'.dest = st.dest ∧ a ≤ maxlen ∧ a ≤ st.src.length := by
  intro fuel
  induction fuel with
  | zero =>
    intro st maxlen tr a st' tr' h
    rw [sc_splice] at h
    simp at h
  | succ f ih =>
    intro st maxlen tr a st' tr' h
    cases tr with
    | nil => simp [sc_splice] at h
    | cons ev tr2 =>
      cases ev with
      | resume ex => simp [sc_splice] at h
      | sys s =>
        cases s with
        | ok m =>
          simp only [sc_splice, sc_move, SCRes.ok.injEq] at h
          obtain ⟨h1, h2, h3⟩ := h
          subst h1 h2
          refine ⟨rfl, rfl, rfl, ?_, ?_⟩
          · exact le_trans (min_le_left _ _) (min_le_right _ _)
          · exact min_le_right _ _
        | err e =>
          by_cases hwb : is_would_block e
          · cases tr2 with
            | nil => simp [sc_splice, hwb] at h
            | cons ev2 tr3 =>
              cases ev2 with
              | sys s2 => simp [sc_splice, hwb] at h
              | resume ex =>
                cases ex with
                | true => simp [sc_splice, hwb] at h
                | false =>
                  simp only [sc_splice, hwb, if_true, Bool.true_eq_false] at h
                  obtain ⟨h1, h2, h3, h4, h5⟩ := ih _ _ _ _ _ _ h
                  exact ⟨h1, h2, h3, h4, h5⟩
          · simp [sc_splice, hwb] at h

/-- A successful pipe-to-destination `splice_chunks_splice` moves
`a ≤ maxlen` bytes off the front of the pipe onto the back of the
destination stream. -/
theorem sc_splice_toDest_ok : ∀ (fuel : Nat) (st : SCState) (maxlen : Nat)
    (tr : List Event) (a : Nat) (st' : SCState) (tr' : List Event),
    sc_splice fuel st SCDir.toDest maxlen tr = SCRes.ok a st' tr' →
    st'.src = st.src ∧ st'.pipe = st.pipe.drop a ∧
    st'.dest = st.dest ++ st.pipe.take a ∧ a ≤ maxlen ∧ a ≤ st.pipe.length := by
  intro fuel
  induction fuel with
  | zero =>
    intro st maxlen tr a st' tr' h
    rw [sc_splice] at h
    simp at h
  | succ f ih =>
    intro st maxlen tr a st' tr' h
    cases tr with
    | nil => simp [sc_splice] at h
    | cons ev tr2 =>
      cases ev with
      | resume ex => simp [sc_splice] at h
      | sys s =>
        cases s with
        | ok m =>
          simp only [sc_splice, sc_move, SCRes.ok.injEq] at h
          obtain ⟨h1, h2, h3⟩ := h
          subst h1 h2
          refine ⟨rfl, rfl, rfl, ?_, ?_⟩
          · exact le_trans (min_le_left _ _) (min_le_right _ _)
          · exact min_le_right _ _
        | err e =>
          by_cases hwb : is_would_block e
          · cases tr2 with
            | nil => simp [sc_splice, hwb] at h
            | cons ev2 tr3 =>
              cases ev2 with
              | sys s2 => simp [sc_splice, hwb] at h
              | resume ex =>
                cases ex with
                | true => simp [sc_splice, hwb] at h
                | false =>
                  simp only [sc_splice, hwb, if_true, Bool.true_eq_false] at h
                  obtain ⟨h1, h2, h3, h4, h5⟩ := ih _ _ _ _ _ _ h
                  exact ⟨h1, h2, h3, h4, h5⟩
          · simp [sc_splice, hwb] at h

/-- A successful drain loop, started with `left` equal to the pipe's fill,
empties the pipe onto the back of the destination stream. -/
theorem sc_drain_ok : ∀ (fuel : Nat) (st : SCState) (left : Nat) (tr : List Event)
    (v : Nat) (st' : SCState) (tr' : List Event),
    left = st.pipe.length →
    sc_drain fuel st left tr = SCRes.ok v st' tr' →
    st'.src = st.src ∧ st'.pipe = [] ∧ st'.dest = st.dest ++ st.pipe := by
  intro fuel
  induction fuel with
  | zero =>
    intro st left tr v st' tr' hl h
    rw [sc_drain] at h
    simp at h
  | succ f ih =>
    intro st left tr v st' tr' hl h
    rw [sc_drain] at h
    by_cases h0 : (left == 0) = true
    · rw [h0] at h
      simp only [if_true, SCRes.ok.injEq] at h
      obtain ⟨_, h2, _⟩ := h
      subst h2
      have hp : st.pipe = [] := by
        have h00 : left = 0 := by simpa using h0
        exact List.length_eq_zero.mp (by omega)
      refine ⟨rfl, hp, by simp [hp]⟩
    · have h0' : (left == 0) = false := by simpa using h0
      rw [h0'] at h
      simp only [Bool.false_eq_true, if_false] at h
      cases hs : sc_splice (tr.length + 1) st .toDest left tr with
      | ok a st1 tr1 =>
        rw [hs] at h
        obtain ⟨hs1, hs2, hs3, hs4, hs5⟩ := sc_splice_toDest_ok _ _ _ _ _ _ _ hs
        have hl1 : left - a = st1.pipe.length := by
          rw [hs2, List.length_drop]
          omega
        obtain ⟨g1, g2, g3⟩ := ih st1 (left - a) tr1 v st' tr' hl1 h
        refine ⟨by rw [g1, hs1], g2, ?_⟩
        rw [g3, hs3, hs2, List.append_assoc, List.take_append_drop]
      | syserr e st1 tr1 => rw [hs] at h; simp at h
      | exn st1 tr1 => rw [hs] at h; simp at h
      | stuck => rw [hs] at h; simp at h

/-- A successful framed write appends exactly the framing bytes of the
chunk length to the destination stream. -/
theorem sc_write_framed_ok (st : SCState) (fr : Framing) (clen : Nat)
    (tr : List Event) (v : Nat) (st' : SCState) (tr' : List Event)
    (h : sc_write_framed st fr clen tr = SCRes.ok v st' tr') :
    st'.src = st.src ∧ st'.pipe = st.pipe ∧
    st'.dest = st.dest ++ frame_bytes fr clen := by
  cases fr with
  | noFraming =>
    simp only [sc_write_framed, SCRes.ok.injEq] at h
    obtain ⟨_, h2, _⟩ := h
    subst h2
    exact ⟨rfl, rfl, by simp [frame_bytes]⟩
  | strF s =>
    simp only [sc_write_framed] at h
    exact sc_write_ok _ _ _ _ _ _ _ h
  | fnF f =>
    simp only [sc_write_framed] at h
    exact sc_write_ok _ _ _ _ _ _ _ h

/-- The main chunk loop, started with an empty pipe: a successful run
splits off a list of non-empty chunks from the front of the source, adds
their total size to the running total, and appends each chunk wrapped in
its framing to the destination stream, leaving the pipe empty. -/
theorem sc_loop_ok : ∀ (fuel : Nat) (cp cq : Framing) (csize : Nat) (st : SCState)
    (total : Nat) (tr : List Event) (T : Nat) (st' : SCState) (tr' : List Event),
    st.pipe = [] →
    sc_loop fuel cp cq csize st total tr = SCRes.ok T st' tr' →
    ∃ chunks : List (List Nat), (∀ c ∈ chunks, c ≠ []) ∧
      st.src = chunks.flatten ++ st'.src ∧
      T = total + chunks.flatten.length ∧
      st'.pipe = [] ∧
      st'.dest = st.dest ++ (chunks.map (fun c =>
        frame_bytes cp c.length ++ c ++ frame_bytes cq c.length)).flatten := by
  intro fuel
  induction fuel with
  | zero =>
    intro cp cq csize st total tr T st' tr' hpipe h
    rw [sc_loop] at h
    simp at h
  | succ f ih =>
    intro cp cq csize st total tr T st' tr' hpipe h
    rw [sc_loop] at h
    cases h1 : sc_splice (tr.length + 1) st .toPipe csize tr with
    | syserr e st1 tr1 => rw [h1] at h; simp at h
    | exn st1 tr1 => rw [h1] at h; simp at h
    | stuck => rw [h1] at h; simp at h
    | ok clen st1 tr1 =>
      rw [h1] at h
      simp only [] at h
      obtain ⟨p1, p2, p3, p4, p5⟩ := sc_splice_toPipe_ok _ _ _ _ _ _ _ h1
      by_cases hc : (clen == 0) = true
      · rw [hc] at h
        simp only [if_true, SCRes.ok.injEq] at h
        obtain ⟨hT, hst, htr⟩ := h
        subst hst
        have hc0 : clen = 0 := by simpa using hc
        subst hc0
        refine ⟨[], by simp, ?_, ?_, ?_, ?_⟩
        · simp [p1]
        · rw [← hT]
          simp
        · rw [p2, hpipe]
          simp
        · simp [p3]
      · have hc' : (clen == 0) = false := by simpa using hc
        have hc0 : clen ≠ 0 := by simpa using hc'
        rw [hc'] at h
        simp only [Bool.false_eq_true, if_false] at h
        cases h2 : sc_write_framed st1 cp clen tr1 with
        | syserr e st2 tr2 => rw [h2] at h; simp at h
        | exn st2 tr2 => rw [h2] at h; simp at h
        | stuck => rw [h2] at h; simp at h
        | ok v2 st2 tr2 =>
          rw [h2] at h
          simp only [] at h
          obtain ⟨q1, q2, q3⟩ := sc_write_framed_ok _ _ _ _ _ _ _ h2
          cases h3 : sc_drain (tr2.length + 1) st2 clen tr2 with
          | syserr e st3 tr3 => rw [h3] at h; simp at h
          | exn st3 tr3 => rw [h3] at h; simp at h
          | stuck => rw [h3] at h; simp at h
          | ok v3 st3 tr3 =>
            rw [h3] at h
            simp only [] at h
            have hfill : clen = st2.pipe.length := by
              rw [q2, p2, hpipe]
              simp [List.length_take]
              omega
            obtain ⟨d1, d2, d3⟩ := sc_drain_ok _ _ _ _ _ _ _ hfill h3
            cases h4 : sc_write_framed st3 cq clen tr3 with
            | syserr e st4 tr4 => rw [h4] at h; simp at h
            | exn st4 tr4 => rw [h4] at h; simp at h
            | stuck => rw [h4] at h; simp at h
            | ok v4 st4 tr4 =>
              rw [h4] at h
              simp only [] at h
              obtain ⟨w1, w2, w3⟩ := sc_write_framed_ok _ _ _ _ _ _ _ h4
              have hpipe4 : st4.pipe = [] := by rw [w2, d2]
              obtain ⟨chunks, g0, g1, g2, g3, g4⟩ :=
                ih cp cq csize st4 (total + clen) tr4 T st' tr' hpipe4 h
              have hsrc4 : st4.src = st.src.drop clen := by
                rw [w1, d1, q1, p1]
              have htklen : (st.src.take clen).length = clen := by
                rw [List.length_take]
                omega
              refine ⟨st.src.take clen :: chunks, ?_, ?_, ?_, g3, ?_⟩
              · intro c hcin
                rcases List.mem_cons.mp hcin with hcc | hcc
                · subst hcc
                  intro hnil
                  rw [hnil] at htklen
                  simp at htklen
                  omega
                · exact g0 c hcc
              · calc st.src = st.src.take clen ++ st.src.drop clen :=
                      (List.take_append_drop _ _).symm
                  _ = st.src.take clen ++ (chunks.flatten ++ st'.src) := by
                      rw [← hsrc4, g1]
                  _ = (st.src.take clen :: chunks).flatten ++ st'.src := by
                      simp [List.append_assoc]
              · rw [g2]
                simp only [List.flatten_cons, List.length_append, htklen]
                omega
              · rw [g4, w3, d3, q3, p3, q2, p2, hpipe]
                simp [htklen, List.append_assoc]

/-- A successful epilogue appends exactly the postfix bytes to the
destination stream and passes the total through. -/
theorem sc_finish_ok : ∀ (post : Option (List Nat)) (total : Nat) (st : SCState)
    (tr : List Event) (T : Nat) (st' : SCState) (tr' : List Event),
    sc_finish post total st tr = SCRes.ok T st' tr' →
    T = total ∧ st'.src = st.src ∧ st'.pipe = st.pipe ∧
    st'.dest = st.dest ++ post.getD [] := by
  have tail : ∀ (total : Nat) (st3 : SCState) (tr3 : List Event) (T : Nat)
      (st' : SCState) (tr' : List Event),
      (if st3.blocked then SCRes.ok total st3 tr3
       else match tr3 with
         | Event.resume ex :: tr4 =>
           if ex then SCRes.exn st3 tr4 else SCRes.ok total st3 tr4
         | _ => SCRes.stuck) = SCRes.ok T st' tr' →
      T = total ∧ st' = st3 := by
    intro total st3 tr3 T st' tr' hfin
    by_cases hb : st3.blocked
    · rw [if_pos hb] at hfin
      simp only [SCRes.ok.injEq] at hfin
      exact ⟨hfin.1.symm, hfin.2.1.symm⟩
    · rw [if_neg hb] at hfin
      cases tr3 with
      | nil => simp at hfin
      | cons ev tr4 =>
        cases ev with
        | sys s => simp at hfin
        | resume ex =>
          cases ex with
          | true => simp at hfin
          | false =>
            simp only [Bool.false_eq_true, if_false, SCRes.ok.injEq] at hfin
            exact ⟨hfin.1.symm, hfin.2.1.symm⟩
  intro post total st tr T st' tr' h
  cases post with
  | none =>
    simp only [sc_finish] at h
    obtain ⟨h1, h2⟩ := tail _ _ _ _ _ _ h
    subst h2
    exact ⟨h1, rfl, rfl, by simp⟩
  | some s =>
    simp only [sc_finish] at h
    cases hw : sc_write (tr.length + 1) st s tr with
    | ok v st3 tr3 =>
      rw [hw] at h
      simp only [] at h
      obtain ⟨w1, w2, w3⟩ := sc_write_ok _ _ _ _ _ _ _ hw
      obtain ⟨h1, h2⟩ := tail _ _ _ _ _ _ h
      subst h2
      exact ⟨h1, w1, w2, by simpa using w3⟩
    | syserr e st3 tr3 => rw [hw] at h; simp at h
    | exn st3 tr3 => rw [hw] at h; simp at h
    | stuck => rw [hw] at h; simp at h

/-- C4 (confirmed): a successful `Backend_splice_chunks` run transfers a
list of non-empty chunks off the front of the source; the returned total is
exactly the number of source bytes transferred (framing bytes are not
counted), and the destination stream is the prefix, then each chunk wrapped
in its chunk framing (callables applied to the chunk length, nil
contributing nothing), then the postfix. -/
theorem C4_splice_chunks_stream (pre post : Option (List Nat)) (cp cq : Framing)
    (chunk_size : Nat) (src : List Nat) (tr : List Event) (T : Nat) (st' : SCState)
    (tr' : List Event)
    (h : Backend_splice_chunks pre post cp cq chunk_size src tr = SCRes.ok T st' tr') :
    ∃ chunks : List (List Nat), (∀ c ∈ chunks, c ≠ []) ∧
      src = chunks.flatten ++ st'.src ∧
      T = chunks.flatten.length ∧
      T = src.length - st'.src.length ∧
      st'.dest = pre.getD [] ++ (chunks.map (fun c =>
        frame_bytes cp c.length ++ c ++ frame_bytes cq c.length)).flatten ++
        post.getD [] := by
  rw [Backend_splice_chunks.eq_def] at h
  have main : ∀ (st1 : SCState) (tr1 : List Event),
      st1.src = src → st1.pipe = [] → st1.dest = pre.getD [] →
      (match sc_loop (tr1.length + 1) cp cq chunk_size st1 0 tr1 with
        | SCRes.ok total st2 tr2 => sc_finish post total st2 tr2
        | r => r) = SCRes.ok T st' tr' →
      ∃ chunks : List (List Nat), (∀ c ∈ chunks, c ≠ []) ∧
        src = chunks.flatten ++ st'.src ∧
        T = chunks.flatten.length ∧
        T = src.length - st'.src.length ∧
        st'.dest = pre.getD [] ++ (chunks.map (fun c =>
          frame_bytes cp c.length ++ c ++ frame_bytes cq c.length)).flatten ++
          post.getD [] := by
    intro st1 tr1 hsrc hpipe hdest hm
    cases hl : sc_loop (tr1.length + 1) cp cq chunk_size st1 0 tr1 with
    | ok total st2 tr2 =>
      rw [hl] at hm
      simp only [] at hm
      obtain ⟨chunks, g0, g1, g2, g3, g4⟩ :=
        sc_loop_ok _ _ _ _ _ _ _ _ _ _ hpipe hl
      obtain ⟨f1, f2, f3, f4⟩ := sc_finish_ok _ _ _ _ _ _ _ hm
      rw [hsrc] at g1
      have hsrc' : st'.src = st2.src := f2
      have hflat : src = chunks.flatten ++ st'.src := by rw [hsrc', g1]
      refine ⟨chunks, g0, hflat, by omega, ?_, ?_⟩
      · have : st'.src.length + chunks.flatten.length = src.length := by
          rw [hflat]
          simp [Nat.add_comm]
        omega
      · rw [f4, g4, hdest]
    | syserr e st2 tr2 => rw [hl] at hm; simp at hm
    | exn st2 tr2 => rw [hl] at hm; simp at hm
    | stuck => rw [hl] at hm; simp at hm
  cases pre with
  | none =>
    simp only [] at h
    exact main ⟨src, [], [], false⟩ tr rfl rfl (by simp) h
  | some s =>
    simp only [] at h
    cases hw : sc_write (tr.length + 1) ⟨src, [], [], false⟩ s tr with
    | ok v st1 tr1 =>
      rw [hw] at h
      simp only [] at h
      obtain ⟨w1, w2, w3⟩ := sc_write_ok _ _ _ _ _ _ _ hw
      exact main st1 tr1 w1 w2 (by simpa using w3) h
    | syserr e st1 tr1 => rw [hw] at h; simp at h
    | exn st1 tr1 => rw [hw] at h; simp at h
    | stuck => rw [hw] at h; simp at h

/-- C4 witness: source `[1, 2, 3]`, chunk size 2, prefix `[9]`, postfix
`[8]`, a callable chunk prefix emitting `[chunk_len]` and a constant chunk
postfix `[5]`: the run transfers 3 bytes in chunks `[1, 2]`, `[3]` and the
destination stream is `[9, 2, 1, 2, 5, 1, 3, 5, 8]`. -/
theorem C4_splice_chunks_stream_witness :
    ∃ chunks : List (List Nat), (∀ c ∈ chunks, c ≠ []) ∧
      ([1, 2, 3] : List Nat) = chunks.flatten ++ [] ∧
      3 = chunks.flatten.length ∧
      3 = ([1, 2, 3] : List Nat).length - ([] : List Nat).length ∧
      ([9, 2, 1, 2, 5, 1, 3, 5, 8] : List Nat) =
        (some [9] : Option (List Nat)).getD [] ++ (chunks.map (fun c =>
          frame_bytes (Framing.fnF fun n => [n]) c.length ++ c ++
          frame_bytes (Framing.strF [5]) c.length)).flatten ++
        (some [8] : Option (List Nat)).getD [] :=
  C4_splice_chunks_stream (some [9]) (some [8]) (Framing.fnF fun n => [n])
    (Framing.strF [5]) 2 [1, 2, 3]
    [Event.sys (SysRes.ok 1), Event.sys (SysRes.ok 2), Event.sys (SysRes.ok 1),
     Event.sys (SysRes.ok 2), Event.sys (SysRes.ok 1), Event.sys (SysRes.ok 2),
     Event.sys (SysRes.ok 1), Event.sys (SysRes.ok 1), Event.sys (SysRes.ok 1),
     Event.sys (SysRes.ok 9), Event.sys (SysRes.ok 1), Event.resume false]
    3 ⟨[], [], [9, 2, 1, 2, 5, 1, 3, 5, 8], false⟩ [] (by decide)
